import Mathlib

/-!
Verification of the `multi-agent` repository's core: the agent orchestration
loop (`src/src/agent/core.ts`), the markdown stripper and response
parser/validator (`src/src/agent/parser.ts`, `src/src/agent/schemas.ts`), the
in-memory tool registry (`src/src/tools/ToolErrors.ts`, class
`InMemoryToolRegistry`), and the conversation token estimator
(`src/src/conversation/ConversationService.ts`).

The TypeScript sources are shallowly embedded: strings are Lean `String`
(lists of characters), JavaScript numbers used as integer counters become
`Nat`/`Int`, the fractional `contextLimitThreshold` and token budget become
`ℚ`, JSON values parsed by `JSON.parse` become an inductive `Json` type, and
the stateful service objects are threaded as explicit state.  External
collaborators of the core (the model HTTP service, `JSON.parse` and
`JSON.stringify` builtins, the per-tool argument schemas and execute bodies)
are parameters of the embedding, exactly as the spec leaves them abstract.
-/

namespace MultiAgent

/-! ## JSON values

`JSON.parse` output as seen by the zod schemas: an object is a finite list of
string-keyed fields (JavaScript objects have unique keys; none of the proofs
below depend on uniqueness). -/

inductive Json where
  | null : Json
  | bool (b : Bool) : Json
  | num (q : ℚ) : Json
  | str (s : String) : Json
  | arr (elems : List Json) : Json
  | obj (fields : List (String × Json)) : Json

/-- The field names of a JSON object. -/
def jsonKeys (fields : List (String × Json)) : List String :=
  fields.map Prod.fst

/-! ## Response schemas (src/src/agent/schemas.ts)

`completionResponseSchema = z.object({ done: z.literal(true), response:
z.string() }).strict()` and `toolCallResponseSchema = z.object({ tool:
z.string(), args: z.record(z.string(), z.unknown()) }).strict()`.  `.strict()`
rejects unknown keys; all declared keys are required. -/

/-- Semantics of `completionResponseSchema.safeParse`: succeeds exactly on a strict object
`\x7b done: true, response: <string> \x7d`, returning the `response` field. -/
def asCompletion : Json → Option String
  | Json.obj fields =>
    if fields.all (fun kv => kv.1 == "done" || kv.1 == "response") then
      match List.lookup "done" fields, List.lookup "response" fields with
      | some (Json.bool true), some (Json.str s) => some s
      | _, _ => none
    else none
  | _ => none

/-- Semantics of `toolCallResponseSchema.safeParse`: succeeds exactly on a strict object
`\x7b tool: <string>, args: <object> \x7d`, returning the tool name and the
argument record. -/
def asToolCall : Json → Option (String × List (String × Json))
  | Json.obj fields =>
    if fields.all (fun kv => kv.1 == "tool" || kv.1 == "args") then
      match List.lookup "tool" fields, List.lookup "args" fields with
      | some (Json.str name), some (Json.obj args) => some (name, args)
      | _, _ => none
    else none
  | _ => none

/-- Outcome of validating a parsed JSON value against the two response
schemas. -/
inductive ValidationResult where
  | completion (response : String) : ValidationResult
  | toolCall (tool : String) (args : List (String × Json)) : ValidationResult
  | invalid : ValidationResult

/-- Classification of a parsed JSON value, following
`parseResponse` (src/src/agent/parser.ts, lines 57–74): the completion schema
is tried first, then the tool-call schema; if neither matches the value is a
validation error. -/
def validateResponse (j : Json) : ValidationResult :=
  match asCompletion j with
  | some s => ValidationResult.completion s
  | none =>
    match asToolCall j with
    | some (name, args) => ValidationResult.toolCall name args
    | none => ValidationResult.invalid

/-! ## Markdown stripper (src/src/agent/parser.ts, lines 20–29)

```ts
return text.replace(/```json\n?/g, '').replace(/```\n?/g, '').trim();
```

A global regex replace with an empty replacement scans left to right over the
original string: at each position, if the pattern matches there, the match
(including the optional newline) is skipped and scanning resumes after it;
otherwise the character is kept.  `String.prototype.trim` removes ECMAScript
WhiteSpace and LineTerminator code points from both ends. -/

/-- ECMAScript whitespace as used by `String.prototype.trim`. -/
def isJsWs (c : Char) : Bool :=
  c.val == 0x20 || c.val == 0x9 || c.val == 0xa || c.val == 0xd ||
  c.val == 0xb || c.val == 0xc || c.val == 0xa0 || c.val == 0x1680 ||
  (0x2000 ≤ c.val && c.val ≤ 0x200a) || c.val == 0x2028 || c.val == 0x2029 ||
  c.val == 0x202f || c.val == 0x205f || c.val == 0x3000 || c.val == 0xfeff

/-- JavaScript `text.trim()` on the character list. -/
def jsTrim (l : List Char) : List Char :=
  ((l.dropWhile isJsWs).reverse.dropWhile isJsWs).reverse

/-- Drops one leading newline, matching the `\n?` tail of the fence regexes. -/
def dropOptNl : List Char → List Char
  | '\n' :: rest => rest
  | l => l

/-- JavaScript `text.replace(pat-regex, '')` for the fence patterns: one left-to-right
pass removing each non-overlapping occurrence of `c0 :: ptail` together with
one optional newline directly after it. -/
def replaceAll (c0 : Char) (ptail : List Char) : List Char → List Char
  | [] => []
  | c :: cs =>
    if (c0 :: ptail).isPrefixOf (c :: cs) then
      replaceAll c0 ptail (dropOptNl ((c :: cs).drop (ptail.length + 1)))
    else
      c :: replaceAll c0 ptail cs
termination_by l => l.length
decreasing_by
  · simp only [List.length_cons]
    have h1 : ∀ l : List Char, (dropOptNl l).length ≤ l.length := by
      intro l
      unfold dropOptNl
      split <;> simp
    have h1 := h1 ((c :: cs).drop (ptail.length + 1))
    have h2 : ((c :: cs).drop (ptail.length + 1)).length =
        (c :: cs).length - (ptail.length + 1) := List.length_drop _ _
    simp only [List.length_cons] at h2
    omega
  · simp

/-- The `/```json\n?/` pattern tail (first character is the backtick). -/
def fenceJsonTail : List Char := ['\x60', '\x60', 'j', 's', 'o', 'n']

/-- The `/```\n?/` pattern tail (first character is the backtick). -/
def fenceTail : List Char := ['\x60', '\x60']

/-- The three-backtick fence marker. -/
def fence : List Char := '\x60' :: fenceTail

/-- The function `stripMarkdown` (src/src/agent/parser.ts lines 20–29) on character
lists: remove every `\x60\x60\x60json` occurrence, then every `\x60\x60\x60`
occurrence (each with an optional trailing newline), then trim.  The `if
(!text)` guard returns the empty string for empty input, which coincides with
the general path. -/
def stripMarkdownL (l : List Char) : List Char :=
  jsTrim (replaceAll '\x60' fenceTail (replaceAll '\x60' fenceJsonTail l))

/-- The function `stripMarkdown` on Lean strings. -/
def stripMarkdown (s : String) : String :=
  String.mk (stripMarkdownL s.data)

/-! ## Tool registry (src/src/tools/ToolErrors.ts, class `InMemoryToolRegistry`)

The `Map<string, Tool>` is embedded as an insertion-ordered association list
threaded through the methods.  A tool's `argsSchema.safeParse` and its
`execute` body (which may throw) are external to the registry and appear as
`Except`-valued fields: `Except.error` models a zod failure resp. a thrown
exception. -/

/-- The `ToolResult` shape: `error` set on failures, `data` on successes. -/
structure ToolResult where
  success : Bool
  data : Option Json := none
  error : Option String := none

/-- A tool invocation request `\x7b name, args \x7d`. -/
structure ToolCall where
  name : String
  args : Json

/-- A registered tool: public metadata plus the argument schema and the
execute body. -/
structure Tool where
  name : String
  description : String
  parameters : Json
  argsSchema : Json → Except String Json
  execute : Json → Except String ToolResult

/-- The public metadata exposed by `list()`. -/
structure ToolMetadata where
  name : String
  description : String
  parameters : Json

/-- Projection to the public metadata. -/
def toolMetadata (t : Tool) : ToolMetadata :=
  { name := t.name, description := t.description, parameters := t.parameters }

/-- The registry's backing `Map`, in insertion order. -/
abbrev RegistryState : Type := List (String × Tool)

/-- Method `InMemoryToolRegistry.register`: throws `ToolAlreadyRegisteredError`
(message `Tool '<name>' is already registered`, src/src/tools/ToolErrors.ts
lines 11–16) when the name is taken, otherwise inserts. -/
def registryRegister (s : RegistryState) (t : Tool) : Except String RegistryState :=
  if (List.lookup t.name s).isSome then
    Except.error ("Tool '" ++ t.name ++ "' is already registered")
  else
    Except.ok (s ++ [(t.name, t)])

/-- The found-tool path of `execute`: validate the arguments against the
tool's schema, then run the tool, converting a thrown exception into a
failure `ToolResult`. -/
def runFoundTool (t : Tool) (name : String) (args : Json) : ToolResult :=
  match t.argsSchema args with
  | Except.error e =>
    { success := false, data := none,
      error := some ("Invalid arguments for tool '" ++ name ++ "': " ++ e) }
  | Except.ok validated =>
    match t.execute validated with
    | Except.ok r => r
    | Except.error msg =>
      { success := false, data := none,
        error := some ("Tool '" ++ name ++ "' failed: " ++ msg) }

/-- Method `InMemoryToolRegistry.execute`: every branch returns a `ToolResult`
without raising, and the backing map is read but never written (the returned
state is the input state). -/
def registryExecute (s : RegistryState) (tc : ToolCall) : ToolResult × RegistryState :=
  match List.lookup tc.name s with
  | none =>
    ({ success := false, data := none,
       error := some ("Tool '" ++ tc.name ++ "' not found") }, s)
  | some t => (runFoundTool t tc.name tc.args, s)

/-- Method `InMemoryToolRegistry.list`: public metadata of every registered tool, in
registration order. -/
def registryList (s : RegistryState) : List ToolMetadata :=
  s.map (fun kv => toolMetadata kv.2)

/-! ## Conversation store (src/src/conversation/ConversationService.ts)

Only the parts the claims depend on: `getAll` returns the empty list when the
conversation is absent, and `estimateTokens` is `Math.ceil(totalChars / 4)`
over the concatenated message contents. -/

/-- Message roles. -/
inductive Role where
  | system : Role
  | user : Role
  | assistant : Role
deriving DecidableEq

/-- A conversation message. -/
structure Message where
  role : Role
  content : String
deriving DecidableEq

/-- Total number of characters over all message contents. -/
def totalChars (msgs : List Message) : ℕ :=
  (msgs.map (fun m => m.content.length)).sum

/-- Reading all messages of a possibly-absent conversation (`getAll`). -/
def getAllMessages : Option (List Message) → List Message
  | none => []
  | some msgs => msgs

/-- The heuristic `Math.ceil(totalChars / 4)` (JavaScript float division then ceiling,
exact for every realistic size). -/
def estimateTokensMsgs (msgs : List Message) : ℕ :=
  (⌈(totalChars msgs : ℚ) / 4⌉).toNat

/-- Method `InMemoryConversationService.estimateTokens`
(src/src/conversation/ConversationService.ts lines 80–87): token heuristic
over the stored messages, `0` when the conversation is absent. -/
def estimateTokens (conv : Option (List Message)) : ℕ :=
  estimateTokensMsgs (getAllMessages conv)

/-! ## Agent loop (src/src/agent/core.ts, `runAgent`)

The file holds the original `runAgent` (lines 18–145) and a refactored
variant (lines 164–328) that factors the same behaviour into helpers
(`checkContextLimit`, `executeToolAndUpdateConversation`, `handleCompletion`,
`createResult`); the loop structure, branch order and metrics updates are
identical.  The embedding follows that common structure, with the failure
message texts of lines 66–77 and 132–136.

External collaborators are fields of `AgentEnv`: the model call
(`services.llm.chat`), the composite `parseJson`/`validateResponse`
classification of the raw model text (whose JSON parsing is the external
`JSON.parse` builtin), the tool registry's `execute`, the error-feedback
message builders of src/src/agent/agentHelpers.ts (which produce
system-role messages) and the `JSON.stringify` tool-result envelope.  The
conversation store is the threaded `List Message`; each external call is
recorded in an event trace so that "the model/tool was never invoked" is a
statement about the run. -/

/-- Classification of one raw model turn by `parseJson` +
`validateResponse`: JSON syntax failure, schema-validation failure, tool
call, or completion (carrying the extracted `response` field). -/
inductive TurnClass where
  | parseFail (errMsg : String) : TurnClass
  | invalid (errors : List String) : TurnClass
  | tool (tc : ToolCall) : TurnClass
  | done (response : String) : TurnClass

/-- The metrics counters of one `runAgent` invocation. -/
structure AgentMetrics where
  iterations : ℕ
  toolCalls : ℕ
  parseErrors : ℕ
  toolFailures : ℕ
  contextLimitReached : Bool
deriving DecidableEq

/-- Metrics at entry: all counters zero. -/
def initialMetrics : AgentMetrics :=
  { iterations := 0, toolCalls := 0, parseErrors := 0, toolFailures := 0,
    contextLimitReached := false }

/-- The loop's sole output: success/error payload plus the metrics. -/
structure AgentResult where
  success : Bool
  response : Option String
  error : Option String
  metrics : AgentMetrics
deriving DecidableEq

/-- Per-run configuration (after defaults are merged). -/
structure AgentConfig where
  maxIterations : ℤ
  contextLimitThreshold : ℚ
  maxTokens : ℚ

/-- The external collaborators of one `runAgent` invocation. -/
structure AgentEnv where
  llm : List Message → String
  classify : String → TurnClass
  execTool : ToolCall → ToolResult
  parseErrorContent : String → String
  validationErrorContent : List String → String
  stringifyToolResult : ToolResult → String

/-- Externally visible calls performed by the loop. -/
inductive AgentEvent where
  | llmCall (messages : List Message) : AgentEvent
  | toolExec (tc : ToolCall) : AgentEvent

/-- The terminal "max iterations" error text (src/src/agent/core.ts line
134). -/
def maxIterationsMessage (maxIterations : ℤ) (m : AgentMetrics) : String :=
  "Max iterations (" ++ toString maxIterations ++ ") exceeded. Tool calls: " ++
    toString m.toolCalls ++ ", Parse errors: " ++ toString m.parseErrors

/-- The terminal "context limit" error text (src/src/agent/core.ts line
71). -/
def contextLimitMessage (estimatedTokens : ℕ) (m : AgentMetrics) : String :=
  "Context limit reached (" ++ toString estimatedTokens ++
    " tokens). Tool calls: " ++ toString m.toolCalls ++ ", Parse errors: " ++
    toString m.parseErrors

/-- Helper `checkContextLimit` (src/src/agent/core.ts lines 283–285):
`estimatedTokens > maxTokens * threshold`. -/
def checkContextLimit (estimatedTokens : ℕ) (maxTokens threshold : ℚ) : Bool :=
  decide ((estimatedTokens : ℚ) > maxTokens * threshold)

/-- The `for (let i = 0; i < maxIterations; i++)` body, by remaining
iteration budget.  At the top of each pass the iteration counter is bumped,
then the context limit is checked, then the model is called and the turn is
classified and routed. -/
def runLoop (env : AgentEnv) (cfg : AgentConfig) :
    ℕ → List Message → AgentMetrics → List AgentEvent →
    AgentResult × List Message × List AgentEvent
  | 0, conv, m, trace =>
    ({ success := false, response := none,
       error := some (maxIterationsMessage cfg.maxIterations m), metrics := m },
     conv, trace)
  | fuel + 1, conv, m, trace =>
    let m1 : AgentMetrics := { m with iterations := m.iterations + 1 }
    let est := estimateTokensMsgs conv
    if checkContextLimit est cfg.maxTokens cfg.contextLimitThreshold then
      ({ success := false, response := none,
         error := some (contextLimitMessage est m1),
         metrics := { m1 with contextLimitReached := true } }, conv, trace)
    else
      let content := env.llm conv
      let trace1 := trace ++ [AgentEvent.llmCall conv]
      match env.classify content with
      | TurnClass.parseFail e =>
        runLoop env cfg fuel (conv ++ [⟨Role.system, env.parseErrorContent e⟩])
          { m1 with parseErrors := m1.parseErrors + 1 } trace1
      | TurnClass.invalid errs =>
        runLoop env cfg fuel (conv ++ [⟨Role.system, env.validationErrorContent errs⟩])
          { m1 with parseErrors := m1.parseErrors + 1 } trace1
      | TurnClass.tool tc =>
        let r := env.execTool tc
        runLoop env cfg fuel
          (conv ++ [⟨Role.assistant, env.stringifyToolResult r⟩])
          { m1 with toolCalls := m1.toolCalls + 1,
                    toolFailures := m1.toolFailures + (if r.success then 0 else 1) }
          (trace1 ++ [AgentEvent.toolExec tc])
      | TurnClass.done resp =>
        ({ success := true, response := some resp, error := none, metrics := m1 },
         conv ++ [⟨Role.assistant, content⟩], trace1)

/-- Entry point `runAgent`: entry validation, idempotent seeding of an empty
conversation with the system prompt, appending the user message, then the
bounded loop. -/
def runAgent (userInput systemPrompt : String) (env : AgentEnv) (cfg : AgentConfig)
    (conv0 : List Message) : AgentResult × List Message × List AgentEvent :=
  if jsTrim userInput.data = [] then
    ({ success := false, response := none,
       error := some "User input cannot be empty", metrics := initialMetrics },
     conv0, [])
  else if jsTrim systemPrompt.data = [] then
    ({ success := false, response := none,
       error := some "System prompt cannot be empty", metrics := initialMetrics },
     conv0, [])
  else
    let conv1 := if conv0.isEmpty then [⟨Role.system, systemPrompt⟩] else conv0
    let conv2 := conv1 ++ [⟨Role.user, userInput⟩]
    runLoop env cfg cfg.maxIterations.toNat conv2 initialMetrics []

/-- A concrete environment used to exercise the loop on closed inputs: the
model always answers `x`, classified by the given function; tools always
succeed. -/
def sampleEnv (classify : String → TurnClass) : AgentEnv :=
  { llm := fun _ => "x", classify := classify,
    execTool := fun _ => { success := true },
    parseErrorContent := fun e => e,
    validationErrorContent := fun _ => "v",
    stringifyToolResult := fun _ => "tr" }

/-- A concrete configuration with the given iteration budget. -/
def sampleCfg (maxIterations : ℤ) : AgentConfig :=
  { maxIterations := maxIterations, contextLimitThreshold := 1,
    maxTokens := ((1000 : ℕ) : ℚ) }

lemma asCompletion_obj_eq_none_of_tool_mem
    (fields : List (String × Json)) (h : "tool" ∈ jsonKeys fields) :
    asCompletion (Json.obj fields) = none := by
  obtain ⟨kv, hkv, hfst⟩ := List.mem_map.mp h
  have hall : fields.all (fun kv => kv.1 == "done" || kv.1 == "response") = false := by
    rw [List.all_eq_false]
    exact ⟨kv, hkv, by simp [hfst]⟩
  simp [asCompletion, hall]

lemma asToolCall_obj_eq_none_of_done_mem
    (fields : List (String × Json)) (h : "done" ∈ jsonKeys fields) :
    asToolCall (Json.obj fields) = none := by
  obtain ⟨kv, hkv, hfst⟩ := List.mem_map.mp h
  have hall : fields.all (fun kv => kv.1 == "tool" || kv.1 == "args") = false := by
    rw [List.all_eq_false]
    exact ⟨kv, hkv, by simp [hfst]⟩
  simp [asToolCall, hall]

lemma mem_keys_of_lookup_eq_some {k : String} {v : Json} :
    ∀ {l : List (String × Json)}, List.lookup k l = some v → k ∈ jsonKeys l := by
  intro l
  induction l with
  | nil => intro h; simp [List.lookup] at h
  | cons kv t ih =>
    intro h
    rw [List.lookup] at h
    by_cases hk : k == kv.1
    · have : k = kv.1 := by simpa using hk
      simp [jsonKeys, this]
    · simp only [hk, cond_false] at h
      simp [jsonKeys] at ih ⊢
      exact Or.inr (ih h)

lemma asToolCall_eq_none_of_asCompletion_eq_some {j : Json} {s : String}
    (h : asCompletion j = some s) : asToolCall j = none := by
  cases j with
  | obj fields =>
    have hdone : "done" ∈ jsonKeys fields := by
      rw [asCompletion] at h
      by_cases hall : fields.all (fun kv => kv.1 == "done" || kv.1 == "response")
      · simp only [hall, if_true] at h
        rcases hl : List.lookup "done" fields with _ | jv
        · rw [hl] at h; simp at h
        · exact mem_keys_of_lookup_eq_some hl
      · simp [hall] at h
    exact asToolCall_obj_eq_none_of_done_mem fields hdone
  | null => simp [asCompletion] at h
  | bool b => simp [asCompletion] at h
  | num q => simp [asCompletion] at h
  | str t => simp [asCompletion] at h
  | arr es => simp [asCompletion] at h

/-- Claim C4: Response validation (`parseResponse`, src/src/agent/parser.ts
lines 57–74, over the strict zod schemas of src/src/agent/schemas.ts) rejects
every parsed JSON object that contains both a `done` key and a `tool` key:
such a value is classified as neither a ToolCall nor a Completion.  More
generally, a value is accepted only when it matches exactly one of the two
strict schemas. -/
theorem validate_rejects_done_and_tool :
    (∀ fields : List (String × Json), "done" ∈ jsonKeys fields →
      "tool" ∈ jsonKeys fields →
      validateResponse (Json.obj fields) = ValidationResult.invalid) ∧
    (∀ j : Json, validateResponse j ≠ ValidationResult.invalid →
      ((asCompletion j).isSome ∧ asToolCall j = none) ∨
      (asCompletion j = none ∧ (asToolCall j).isSome)) := by
  constructor
  · intro fields hdone htool
    rw [validateResponse, asCompletion_obj_eq_none_of_tool_mem fields htool,
      asToolCall_obj_eq_none_of_done_mem fields hdone]
  · intro j hne
    rcases hc : asCompletion j with _ | s
    · rcases ht : asToolCall j with _ | p
      · exact absurd (by rw [validateResponse, hc, ht]) hne
      · exact Or.inr ⟨rfl, by simp [ht]⟩
    · exact Or.inl ⟨by simp [hc], asToolCall_eq_none_of_asCompletion_eq_some hc⟩

/-- Witness for C4: the concrete payload
`\x7b"done": true, "tool": "echo", "args": \x7b\x7d\x7d` is rejected. -/
theorem validate_rejects_done_and_tool_witness :
    validateResponse (Json.obj
      [("done", Json.bool true), ("tool", Json.str "echo"),
       ("args", Json.obj [])]) = ValidationResult.invalid :=
  validate_rejects_done_and_tool.1
    [("done", Json.bool true), ("tool", Json.str "echo"), ("args", Json.obj [])]
    (by simp [jsonKeys]) (by simp [jsonKeys])

/-! ### Facts about the markdown stripper -/

lemma replaceAll_cons_pos {c0 : Char} {ptail : List Char} {c : Char} {cs : List Char}
    (h : (c0 :: ptail).isPrefixOf (c :: cs) = true) :
    replaceAll c0 ptail (c :: cs) =
      replaceAll c0 ptail (dropOptNl ((c :: cs).drop (ptail.length + 1))) := by
  rw [replaceAll, if_pos h]

lemma replaceAll_cons_neg {c0 : Char} {ptail : List Char} {c : Char} {cs : List Char}
    (h : ¬ (c0 :: ptail).isPrefixOf (c :: cs) = true) :
    replaceAll c0 ptail (c :: cs) = c :: replaceAll c0 ptail cs := by
  rw [replaceAll, if_neg h]

/-- If the pattern occurs nowhere in the input, the global replace is the
identity. -/
lemma replaceAll_eq_id_of_no_occ {c0 : Char} {ptail : List Char} :
    ∀ {l : List Char}, ¬ ((c0 :: ptail) <:+: l) → replaceAll c0 ptail l = l := by
  intro l
  induction l with
  | nil => intro _; rw [replaceAll]
  | cons c cs ih =>
    intro h
    have hpre : ¬ (c0 :: ptail).isPrefixOf (c :: cs) = true := by
      rw [ List.isPrefixOf_iff_prefix]
      exact fun hp => h hp.isInfix
    rw [replaceAll_cons_neg hpre, ih (fun hi => h (List.infix_cons hi))]

/-- If `ds` does not start with a backtick, neither does
`replaceAll bare-fence ds`. -/
lemma not_backtick_prefix_replaceAll {ds : List Char}
    (h : ¬ (['\x60'] <+: ds)) : ¬ (['\x60'] <+: replaceAll '\x60' fenceTail ds) := by
  cases ds with
  | nil => rw [replaceAll]; simp
  | cons e es =>
    have he : e ≠ '\x60' := by
      intro heq
      exact h (by simp [List.cons_prefix_cons, heq])
    have hpre : ¬ ('\x60' :: fenceTail).isPrefixOf (e :: es) = true := by
      rw [ List.isPrefixOf_iff_prefix, List.cons_prefix_cons]
      rintro ⟨heq, -⟩
      exact he heq.symm
    rw [replaceAll_cons_neg hpre]
    rw [List.cons_prefix_cons]
    rintro ⟨heq, -⟩
    exact he heq.symm

/-- If `cs` does not start with two backticks, neither does
`replaceAll bare-fence cs`. -/
lemma not_two_backticks_prefix_replaceAll {cs : List Char}
    (h : ¬ (['\x60', '\x60'] <+: cs)) : ¬ (['\x60', '\x60'] <+: replaceAll '\x60' fenceTail cs) := by
  cases cs with
  | nil => rw [replaceAll]; simp
  | cons d ds =>
    have hpre : ¬ ('\x60' :: fenceTail).isPrefixOf (d :: ds) = true := by
      rw [ List.isPrefixOf_iff_prefix]
      intro hp
      exact h (List.IsPrefix.trans (by simp [fenceTail, List.cons_prefix_cons]) hp)
    rw [replaceAll_cons_neg hpre]
    rw [List.cons_prefix_cons]
    rintro ⟨heq, htail⟩
    have hd : d = '\x60' := heq.symm
    have hds : ¬ (['\x60'] <+: ds) := by
      intro hp
      exact h (by rw [List.cons_prefix_cons]; exact ⟨hd.symm, hp⟩)
    exact not_backtick_prefix_replaceAll hds htail

/-- The output of the bare-fence replace never contains three consecutive
backticks. -/
lemma fence_not_infix_replaceAll :
    ∀ l : List Char, ¬ (fence <:+: replaceAll '\x60' fenceTail l) := by
  have main : ∀ n, ∀ l : List Char, l.length ≤ n →
      ¬ (fence <:+: replaceAll '\x60' fenceTail l) := by
    intro n
    induction n with
    | zero =>
      intro l hl
      have : l = [] := List.length_eq_zero.mp (Nat.le_zero.mp hl)
      subst this
      rw [replaceAll]
      simp [fence, fenceTail]
    | succ n ih =>
      intro l hl
      cases l with
      | nil =>
        rw [replaceAll]
        simp [fence, fenceTail]
      | cons c cs =>
        by_cases hpre : ('\x60' :: fenceTail).isPrefixOf (c :: cs) = true
        · rw [replaceAll_cons_pos hpre]
          apply ih
          have hd : ∀ m : List Char, (dropOptNl m).length ≤ m.length := by
            intro m
            unfold dropOptNl
            split <;> simp
          have := hd ((c :: cs).drop (fenceTail.length + 1))
          have hdrop : ((c :: cs).drop (fenceTail.length + 1)).length =
              (c :: cs).length - (fenceTail.length + 1) := List.length_drop _ _
          simp only [List.length_cons, fenceTail, List.length_cons, List.length_nil] at *
          omega
        · rw [replaceAll_cons_neg hpre]
          rw [List.infix_cons_iff]
          rintro (hp | hi)
          · rw [show fence = '\x60' :: ['\x60', '\x60'] from rfl, List.cons_prefix_cons] at hp
            obtain ⟨heq, htail⟩ := hp
            have hcs : ¬ (['\x60', '\x60'] <+: cs) := by
              intro h2
              apply hpre
              rw [ List.isPrefixOf_iff_prefix, List.cons_prefix_cons]
              exact ⟨heq, by simpa [fenceTail] using h2⟩
            exact not_two_backticks_prefix_replaceAll hcs htail
          · refine ih cs ?_ hi
            simp only [List.length_cons] at hl
            omega
  intro l
  exact main l.length l le_rfl

lemma dropWhile_append_of_all {p : Char → Bool} {w r : List Char}
    (h : ∀ c ∈ w, p c = true) :
    List.dropWhile p (w ++ r) = List.dropWhile p r := by
  induction w with
  | nil => rfl
  | cons c cs ih =>
    simp only [List.cons_append, List.dropWhile_cons, h c (by simp)]
    exact ih (fun x hx => h x (by simp [hx]))

lemma dropWhile_head_false {p : Char → Bool} :
    ∀ {l : List Char} {c : Char} {rest : List Char},
      List.dropWhile p l = c :: rest → p c = false := by
  intro l
  induction l with
  | nil => intro c rest h; simp at h
  | cons d ds ih =>
    intro c rest h
    rw [List.dropWhile_cons] at h
    by_cases hd : p d
    · simp only [hd, if_true] at h
      exact ih h
    · simp only [hd, if_false] at h
      obtain ⟨h1, -⟩ := List.cons.inj h
      rw [← h1]
      exact Bool.not_eq_true _ |>.mp hd

lemma dropWhile_idem {p : Char → Bool} (l : List Char) :
    List.dropWhile p (List.dropWhile p l) = List.dropWhile p l := by
  rcases h : List.dropWhile p l with _ | ⟨c, rest⟩
  · rfl
  · rw [List.dropWhile_cons, dropWhile_head_false h]
    simp

/-- The trimmed list is an infix of the original. -/
lemma jsTrim_infix_self (l : List Char) : jsTrim l <:+: l := by
  unfold jsTrim
  have h1 : l.dropWhile isJsWs <:+ l := List.dropWhile_suffix isJsWs
  have h2 : ((l.dropWhile isJsWs).reverse.dropWhile isJsWs).reverse <+:
      l.dropWhile isJsWs := by
    have hs : (l.dropWhile isJsWs).reverse.dropWhile isJsWs <:+
        (l.dropWhile isJsWs).reverse := List.dropWhile_suffix isJsWs
    have := List.reverse_prefix.mpr hs
    simpa using this
  exact h2.isInfix.trans h1.isInfix

lemma jsTrim_idem (l : List Char) : jsTrim (jsTrim l) = jsTrim l := by
  unfold jsTrim
  rcases h : List.dropWhile isJsWs l with _ | ⟨c, z⟩
  · simp
  · have hc : isJsWs c = false := dropWhile_head_false h
    -- right trim of `c :: z` keeps the head `c`
    have hsingle : ∀ xs : List Char,
        List.dropWhile isJsWs (xs ++ [c]) = List.dropWhile isJsWs xs ++ [c] := by
      intro xs
      induction xs with
      | nil => simp [List.dropWhile_cons, hc]
      | cons x xs ih =>
        rw [List.cons_append, List.dropWhile_cons, List.dropWhile_cons]
        by_cases hx : isJsWs x
        · simp only [hx, if_true]
          exact ih
        · simp [hx]
    have hrt : (List.dropWhile isJsWs (c :: z).reverse).reverse =
        c :: (List.dropWhile isJsWs z.reverse).reverse := by
      rw [List.reverse_cons, hsingle, List.reverse_append]
      simp
    rw [hrt]
    rw [List.dropWhile_cons]
    simp only [hc, if_false, Bool.false_eq_true]
    rw [hrt.symm]
    rw [List.reverse_reverse, dropWhile_idem]

/-- Claim C5: `stripMarkdown` is idempotent on every input — in particular on
every completion JSON string wrapped in arbitrary surrounding whitespace and
0–2 levels of markdown fence markers:
`stripMarkdown (stripMarkdown x) = stripMarkdown x`. -/
theorem stripMarkdown_idempotent (s : String) :
    stripMarkdown (stripMarkdown s) = stripMarkdown s := by
  unfold stripMarkdown
  have key : ∀ l : List Char, stripMarkdownL (stripMarkdownL l) = stripMarkdownL l := by
    intro l
    have hy : ¬ (fence <:+: replaceAll '\x60' fenceTail (replaceAll '\x60' fenceJsonTail l)) :=
      fence_not_infix_replaceAll _
    have ht : ¬ (fence <:+: stripMarkdownL l) := by
      intro hi
      exact hy (hi.trans (jsTrim_infix_self _))
    have htj : ¬ (('\x60' :: fenceJsonTail) <:+: stripMarkdownL l) := by
      intro hi
      apply ht
      refine List.IsInfix.trans ?_ hi
      refine List.IsPrefix.isInfix ?_
      simp [fence, fenceTail, fenceJsonTail, List.cons_prefix_cons]
    have ht3 : ¬ (('\x60' :: fenceTail) <:+: stripMarkdownL l) := ht
    show jsTrim (replaceAll '\x60' fenceTail
      (replaceAll '\x60' fenceJsonTail (stripMarkdownL l))) = stripMarkdownL l
    rw [replaceAll_eq_id_of_no_occ htj, replaceAll_eq_id_of_no_occ ht3]
    exact jsTrim_idem (replaceAll '\x60' fenceTail (replaceAll '\x60' fenceJsonTail l))
  show String.mk (stripMarkdownL (stripMarkdownL s.data)) = String.mk (stripMarkdownL s.data)
  rw [key]

/-! ### Token estimation -/

lemma ceil_div_four_toNat (c : ℕ) : (⌈(c : ℚ) / 4⌉).toNat = (c + 3) / 4 := by
  have h1 : ⌊-((c : ℚ) / 4)⌋ = -⌈(c : ℚ) / 4⌉ := Int.floor_neg
  have h2 : -((c : ℚ) / 4) = ((-(c : ℤ) : ℤ) : ℚ) / ((4 : ℕ) : ℚ) := by push_cast; ring
  rw [h2, Rat.floor_intCast_div_natCast] at h1
  omega

lemma estimateTokensMsgs_eq (msgs : List Message) :
    estimateTokensMsgs msgs = (totalChars msgs + 3) / 4 := by
  unfold estimateTokensMsgs
  exact ceil_div_four_toNat _

/-- Claim C9: `estimateTokens` over any conversation whose message contents
total `c` characters returns `⌈c/4⌉` (characters divided by four and rounded
up, `= (c + 3) / 4` in natural division), depending only on the concatenated
contents and not on roles, and returns `0` for an absent or empty
conversation. -/
theorem estimateTokens_ceil_div :
    (∀ conv : Option (List Message),
      estimateTokens conv = (totalChars (getAllMessages conv) + 3) / 4) ∧
    estimateTokens none = 0 ∧ estimateTokens (some []) = 0 := by
  have key : ∀ conv : Option (List Message),
      estimateTokens conv = (totalChars (getAllMessages conv) + 3) / 4 := by
    intro conv
    unfold estimateTokens estimateTokensMsgs
    exact ceil_div_four_toNat _
  refine ⟨key, ?_, ?_⟩
  · rw [key]; rfl
  · rw [key]; rfl

/-! ### Tool registry -/

lemma lookup_append_of_lookup_eq_none {k : String} {s r : List (String × Tool)}
    (h : List.lookup k s = none) : List.lookup k (s ++ r) = List.lookup k r := by
  induction s with
  | nil => rfl
  | cons kv tl ih =>
    rw [List.cons_append, List.lookup] at *
    by_cases hk : k == kv.1
    · simp [hk] at h
    · simp only [hk, cond_false] at h ⊢
      exact ih h

/-- Claim C7 counterexample: Executing an unregistered tool name produces the
message `Tool '<name>' not found` with a capital `T`, not the exact value
`tool '<name>' not found` stated by the claim. -/
theorem execute_unknown_tool_message_cased :
    (registryExecute [] ⟨"echo", Json.obj []⟩).1.error = some "Tool 'echo' not found" ∧
    (registryExecute [] ⟨"echo", Json.obj []⟩).1.error ≠ some "tool 'echo' not found" := by
  constructor
  · rfl
  · intro h
    rw [show (registryExecute [] ⟨"echo", Json.obj []⟩).1.error =
        some "Tool 'echo' not found" from rfl] at h
    simp at h

/-- Claim C7 amended: For every registry state and every requested tool name
not present in it, `execute` returns the failure value
`\x7b success: false, error: "Tool '<name>' not found" \x7d` as an ordinary
return value (every branch of the embedded method returns; nothing is
raised), and the registry contents are unchanged. -/
theorem execute_unknown_tool_returns_failure (s : RegistryState) (tc : ToolCall)
    (h : List.lookup tc.name s = none) :
    registryExecute s tc =
      ({ success := false, data := none,
         error := some ("Tool '" ++ tc.name ++ "' not found") }, s) := by
  unfold registryExecute
  rw [h]

/-- Witness for C7: the empty registry and the request `echo`. -/
theorem execute_unknown_tool_returns_failure_witness :
    registryExecute [] ⟨"echo", Json.obj []⟩ =
      ({ success := false, data := none,
         error := some ("Tool '" ++ "echo" ++ "' not found") }, []) :=
  execute_unknown_tool_returns_failure [] ⟨"echo", Json.obj []⟩ rfl

/-- Claim C8: Registering a tool and then registering any tool bearing the
same name makes the second `register` fail with the "already registered"
condition while the registry is left unchanged: the first registration is
still present, `execute` under that name still dispatches to the first tool,
and `list()` still reports its metadata. -/
theorem register_duplicate_fails (s s' : RegistryState) (t1 t2 : Tool)
    (hname : t2.name = t1.name)
    (hreg : registryRegister s t1 = Except.ok s') :
    registryRegister s' t2 =
      Except.error ("Tool '" ++ t2.name ++ "' is already registered") ∧
    List.lookup t1.name s' = some t1 ∧
    (∀ args : Json,
      registryExecute s' ⟨t1.name, args⟩ = (runFoundTool t1 t1.name args, s')) ∧
    toolMetadata t1 ∈ registryList s' := by
  unfold registryRegister at hreg
  by_cases habs : (List.lookup t1.name s).isSome
  · rw [if_pos habs] at hreg
    exact absurd hreg (by simp)
  · rw [if_neg habs] at hreg
    have hs' : s' = s ++ [(t1.name, t1)] := by
      cases hreg
      rfl
    have hnone : List.lookup t1.name s = none := by
      rcases hl : List.lookup t1.name s with _ | v
      · rfl
      · rw [hl] at habs
        simp at habs
    have hfind : List.lookup t1.name s' = some t1 := by
      rw [hs', lookup_append_of_lookup_eq_none hnone]
      simp [List.lookup]
    refine ⟨?_, hfind, ?_, ?_⟩
    · unfold registryRegister
      rw [hname, hfind]
      simp
    · intro args
      unfold registryExecute
      rw [hfind]
    · rw [hs']
      unfold registryList
      simp

/-- Witness for C8: registering `echo` twice in an initially empty
registry. -/
theorem register_duplicate_fails_witness :
    registryRegister
        [("echo", ⟨"echo", "echoes", Json.null, Except.ok, fun _ =>
          Except.ok { success := true }⟩)]
        ⟨"echo", "echoes", Json.null, Except.ok, fun _ =>
          Except.ok { success := true }⟩ =
      Except.error ("Tool '" ++ "echo" ++ "' is already registered") ∧
    List.lookup "echo"
        [("echo", (⟨"echo", "echoes", Json.null, Except.ok, fun _ =>
          Except.ok { success := true }⟩ : Tool))] =
      some ⟨"echo", "echoes", Json.null, Except.ok, fun _ =>
          Except.ok { success := true }⟩ ∧
    (∀ args : Json,
      registryExecute
          [("echo", ⟨"echo", "echoes", Json.null, Except.ok, fun _ =>
            Except.ok { success := true }⟩)] ⟨"echo", args⟩ =
        (runFoundTool
          ⟨"echo", "echoes", Json.null, Except.ok, fun _ =>
            Except.ok { success := true }⟩ "echo" args,
         [("echo", ⟨"echo", "echoes", Json.null, Except.ok, fun _ =>
            Except.ok { success := true }⟩)])) ∧
    toolMetadata (⟨"echo", "echoes", Json.null, Except.ok, fun _ =>
        Except.ok { success := true }⟩ : Tool) ∈
      registryList [("echo", ⟨"echo", "echoes", Json.null, Except.ok, fun _ =>
        Except.ok { success := true }⟩)] :=
  register_duplicate_fails []
    [("echo", ⟨"echo", "echoes", Json.null, Except.ok, fun _ =>
      Except.ok { success := true }⟩)]
    (⟨"echo", "echoes", Json.null, Except.ok, fun _ =>
      Except.ok { success := true }⟩)
    (⟨"echo", "echoes", Json.null, Except.ok, fun _ =>
      Except.ok { success := true }⟩)
    rfl rfl

/-! ### Fence removal on fenced inputs (C6) -/

lemma isJsWs_ne_backtick {c : Char} (h : isJsWs c = true) : c ≠ '\x60' := by
  intro heq
  subst heq
  exact absurd h (by decide)

lemma isJsWs_ne_j {c : Char} (h : isJsWs c = true) : c ≠ 'j' := by
  intro heq
  subst heq
  exact absurd h (by decide)

lemma replaceAll_nil (c0 : Char) (ptail : List Char) :
    replaceAll c0 ptail [] = [] := by
  rw [replaceAll]

/-- Characters different from the pattern head are copied through. -/
lemma replaceAll_skip (c0 : Char) (ptail : List Char) {w : List Char}
    (r : List Char) (h : ∀ c ∈ w, c ≠ c0) :
    replaceAll c0 ptail (w ++ r) = w ++ replaceAll c0 ptail r := by
  induction w with
  | nil => rfl
  | cons c cs ih =>
    have hpre : ¬ (c0 :: ptail).isPrefixOf (c :: (cs ++ r)) = true := by
      rw [ List.isPrefixOf_iff_prefix, List.cons_prefix_cons]
      rintro ⟨heq, -⟩
      exact h c (by simp) heq.symm
    rw [List.cons_append, replaceAll_cons_neg hpre,
      ih (fun x hx => h x (by simp [hx]))]
    rfl

/-- A pattern occurrence at the head is removed together with one optional
newline. -/
lemma replaceAll_append_pat (c0 : Char) (ptail rest : List Char) :
    replaceAll c0 ptail ((c0 :: ptail) ++ rest) =
      replaceAll c0 ptail (dropOptNl rest) := by
  have hpre : (c0 :: ptail).isPrefixOf (c0 :: (ptail ++ rest)) = true := by
    rw [ List.isPrefixOf_iff_prefix]
    exact (List.prefix_append _ _).trans (by rw [List.cons_append])
  rw [List.cons_append, replaceAll_cons_pos hpre]
  have hdrop : (c0 :: (ptail ++ rest)).drop (ptail.length + 1) = rest := by
    have h := List.drop_left (c0 :: ptail) rest
    rw [List.length_cons, List.cons_append] at h
    exact h
  rw [hdrop]

lemma dropOptNl_subset {l : List Char} : ∀ c ∈ dropOptNl l, c ∈ l := by
  intro c hc
  unfold dropOptNl at hc
  split at hc
  · exact List.mem_cons_of_mem _ hc
  · exact hc

/-- The `/```json\n?/` replace leaves a bare closing fence followed by
whitespace untouched. -/
lemma replaceAllJson_fence_ws {ws2 : List Char} (h : ∀ c ∈ ws2, isJsWs c = true) :
    replaceAll '\x60' fenceJsonTail (fence ++ ws2) = fence ++ ws2 := by
  cases ws2 with
  | nil =>
    simp [fence, fenceTail, fenceJsonTail, replaceAll, dropOptNl]
  | cons w ws' =>
    have hw : isJsWs w = true := h w (by simp)
    have hskip : replaceAll '\x60' fenceJsonTail (w :: ws') = w :: ws' := by
      have hall : ∀ c ∈ w :: ws', c ≠ '\x60' := by
        intro c hc
        rcases hc with _ | hc
        · exact isJsWs_ne_backtick hw
        · exact isJsWs_ne_backtick (h c (by simp [List.mem_cons] at *; tauto))
      have := replaceAll_skip '\x60' fenceJsonTail [] hall
      simpa [replaceAll_nil] using this
    have h1 : ¬ ('\x60' :: fenceJsonTail).isPrefixOf
        ('\x60' :: '\x60' :: '\x60' :: w :: ws') = true := by
      simp only [fenceJsonTail, List.isPrefixOf_iff_prefix, List.cons_prefix_cons,
        true_and, not_and]
      exact fun heq => absurd heq.symm (isJsWs_ne_j hw)
    have h2 : ¬ ('\x60' :: fenceJsonTail).isPrefixOf ('\x60' :: '\x60' :: w :: ws') = true := by
      simp only [fenceJsonTail, List.isPrefixOf_iff_prefix, List.cons_prefix_cons,
        true_and, not_and]
      exact fun heq => absurd heq.symm (isJsWs_ne_backtick hw)
    have h3 : ¬ ('\x60' :: fenceJsonTail).isPrefixOf ('\x60' :: w :: ws') = true := by
      simp only [fenceJsonTail, List.isPrefixOf_iff_prefix, List.cons_prefix_cons,
        true_and, not_and]
      exact fun heq => absurd heq.symm (isJsWs_ne_backtick hw)
    show replaceAll '\x60' fenceJsonTail ('\x60' :: '\x60' :: '\x60' :: w :: ws') = _
    rw [replaceAll_cons_neg h1, replaceAll_cons_neg h2, replaceAll_cons_neg h3, hskip]
    rfl

lemma dropWhile_append_of_ne_nil {p : Char → Bool} {m w : List Char}
    (h : List.dropWhile p m ≠ []) :
    List.dropWhile p (m ++ w) = List.dropWhile p m ++ w := by
  induction m with
  | nil => exact absurd rfl h
  | cons c cs ih =>
    rw [List.cons_append, List.dropWhile_cons, List.dropWhile_cons]
    by_cases hc : p c
    · simp only [hc, if_true]
      rw [List.dropWhile_cons] at h
      simp only [hc, if_true] at h
      exact ih h
    · simp [hc]

/-- Whitespace padding on either side does not affect the trimmed value. -/
lemma jsTrim_pad (m : List Char) {w w' : List Char}
    (hw : ∀ c ∈ w, isJsWs c = true) (hw' : ∀ c ∈ w', isJsWs c = true) :
    jsTrim (w ++ m ++ w') = jsTrim m := by
  unfold jsTrim
  rw [List.append_assoc, dropWhile_append_of_all hw]
  by_cases hm : List.dropWhile isJsWs m = []
  · have hmw : ∀ c ∈ m, isJsWs c = true := List.dropWhile_eq_nil_iff.mp hm
    have : List.dropWhile isJsWs (m ++ w') = [] := by
      rw [List.dropWhile_eq_nil_iff]
      intro x hx
      rcases List.mem_append.mp hx with hx | hx
      · exact hmw x hx
      · exact hw' x hx
    rw [this, hm]
  · rw [dropWhile_append_of_ne_nil hm, List.reverse_append,
      dropWhile_append_of_all (by intro c hc; exact hw' c (by simpa using hc))]

/-- Claim C6 counterexample: On the input
`` ```json\na```b\n``` `` the function does *not* leave the interior text
`` a```b `` between the outer fences unchanged: the interior fence marker is
also removed and the result is `ab`. -/
theorem stripMarkdown_removes_interior_fences :
    stripMarkdown "```json\na```b\n```" = "ab" ∧
    stripMarkdown "```json\na```b\n```" ≠ "a```b" := by
  have hev : stripMarkdown "```json\na```b\n```" = "ab" := by
    show String.mk (stripMarkdownL
      ['\x60', '\x60', '\x60', 'j', 's', 'o', 'n', '\n', 'a', '\x60', '\x60', '\x60', 'b', '\n',
       '\x60', '\x60', '\x60']) = String.mk ['a', 'b']
    unfold stripMarkdownL
    simp [replaceAll, dropOptNl, fenceJsonTail, fenceTail, jsTrim,
      show isJsWs 'a' = false from by decide,
      show isJsWs 'b' = false from by decide,
      show isJsWs '\n' = true from by decide,
      List.dropWhile]
  exact ⟨hev, by rw [hev]; decide⟩

/-- Claim C6 amended: `stripMarkdown` removes *every* occurrence of the
`` ```json `` and `` ``` `` fence markers (each with an optionally following
newline) throughout the string — not only the leading and trailing ones — and
trims surrounding whitespace.  Consequently, for an input consisting of a
backtick-free interior wrapped in one `` ```json `` fence pair and
surrounding whitespace, the result is exactly the trimmed interior; a
backtick-free input without fences is likewise only trimmed. -/
theorem stripMarkdown_fenced_wrap
    (ws1 ws2 t : List Char)
    (h1 : ∀ c ∈ ws1, isJsWs c = true) (h2 : ∀ c ∈ ws2, isJsWs c = true)
    (ht : '\x60' ∉ t) :
    stripMarkdownL
        (ws1 ++ ('\x60' :: fenceJsonTail) ++ ('\n' :: t) ++ ('\n' :: fence) ++ ws2) =
      jsTrim t ∧
    stripMarkdownL t = jsTrim t := by
  have hws1 : ∀ c ∈ ws1, c ≠ '\x60' := fun c hc => isJsWs_ne_backtick (h1 c hc)
  have htb : ∀ c ∈ t, c ≠ '\x60' := fun c hc heq => ht (heq ▸ hc)
  constructor
  · have hstep1 : replaceAll '\x60' fenceJsonTail
        (ws1 ++ ('\x60' :: fenceJsonTail) ++ ('\n' :: t) ++ ('\n' :: fence) ++ ws2) =
        ws1 ++ t ++ ('\n' :: fence) ++ ws2 := by
      have hsplit :
          ws1 ++ ('\x60' :: fenceJsonTail) ++ ('\n' :: t) ++ ('\n' :: fence) ++ ws2 =
          ws1 ++ (('\x60' :: fenceJsonTail) ++
            ('\n' :: (t ++ ('\n' :: (fence ++ ws2))))) := by
        simp [List.append_assoc]
      rw [hsplit, replaceAll_skip _ _ _ hws1, replaceAll_append_pat]
      show ws1 ++ replaceAll '\x60' fenceJsonTail (t ++ ('\n' :: (fence ++ ws2))) = _
      have hsk : ∀ c ∈ t ++ ['\n'], c ≠ '\x60' := by
        intro c hc
        rcases List.mem_append.mp hc with hc | hc
        · exact htb c hc
        · simp at hc
          subst hc
          decide
      have hre : t ++ ('\n' :: (fence ++ ws2)) = (t ++ ['\n']) ++ (fence ++ ws2) := by
        simp
      rw [hre, replaceAll_skip _ _ _ hsk, replaceAllJson_fence_ws h2]
      simp [List.append_assoc]
    have hstep2 : replaceAll '\x60' fenceTail (ws1 ++ t ++ ('\n' :: fence) ++ ws2) =
        ws1 ++ t ++ ('\n' :: dropOptNl ws2) := by
      have hsplit : ws1 ++ t ++ ('\n' :: fence) ++ ws2 =
          ((ws1 ++ t) ++ ['\n']) ++ (('\x60' :: fenceTail) ++ ws2) := by
        simp [fence]
      have hsk : ∀ c ∈ (ws1 ++ t) ++ ['\n'], c ≠ '\x60' := by
        intro c hc
        rcases List.mem_append.mp hc with hc | hc
        · rcases List.mem_append.mp hc with hc | hc
          · exact hws1 c hc
          · exact htb c hc
        · simp at hc
          subst hc
          decide
      rw [hsplit, replaceAll_skip _ _ _ hsk, replaceAll_append_pat]
      have hsk2 : ∀ c ∈ dropOptNl ws2, c ≠ '\x60' := by
        intro c hc
        exact isJsWs_ne_backtick (h2 c (dropOptNl_subset c hc))
      have hskips : replaceAll '\x60' fenceTail (dropOptNl ws2) = dropOptNl ws2 := by
        have := replaceAll_skip '\x60' fenceTail [] hsk2
        simpa [replaceAll_nil] using this
      rw [hskips]
      simp [List.append_assoc]
    unfold stripMarkdownL
    rw [hstep1, hstep2]
    have hnl : ∀ c ∈ '\n' :: dropOptNl ws2, isJsWs c = true := by
      intro c hc
      rcases List.mem_cons.mp hc with heq | hc
      · subst heq
        decide
      · exact h2 c (dropOptNl_subset c hc)
    have := jsTrim_pad t h1 hnl
    rw [← this]
  · unfold stripMarkdownL
    have hj : replaceAll '\x60' fenceJsonTail t = t := by
      have := replaceAll_skip '\x60' fenceJsonTail [] htb
      simpa [replaceAll_nil] using this
    have hb : replaceAll '\x60' fenceTail t = t := by
      have := replaceAll_skip '\x60' fenceTail [] htb
      simpa [replaceAll_nil] using this
    rw [hj, hb]

/-- Witness for C6 (amended): interior `\x7b"done":true\x7d` padded with a
space and a newline, wrapped in a `json` fence pair. -/
theorem stripMarkdown_fenced_wrap_witness :
    stripMarkdownL
        ([' '] ++ ('\x60' :: fenceJsonTail) ++
          ('\n' :: [' ', 'd', 'o', 'n', 'e', ' ']) ++ ('\n' :: fence) ++ ['\n']) =
      jsTrim [' ', 'd', 'o', 'n', 'e', ' '] ∧
    stripMarkdownL [' ', 'd', 'o', 'n', 'e', ' '] =
      jsTrim [' ', 'd', 'o', 'n', 'e', ' '] :=
  stripMarkdown_fenced_wrap [' '] ['\n'] [' ', 'd', 'o', 'n', 'e', ' ']
    (by intro c hc; simp at hc; subst hc; decide)
    (by intro c hc; simp at hc; subst hc; decide)
    (by decide)

/-! ### Agent loop unfolding lemmas -/

lemma runLoop_zero (env : AgentEnv) (cfg : AgentConfig) (conv : List Message)
    (m : AgentMetrics) (trace : List AgentEvent) :
    runLoop env cfg 0 conv m trace =
      ({ success := false, response := none,
         error := some (maxIterationsMessage cfg.maxIterations m), metrics := m },
       conv, trace) := rfl

lemma runLoop_succ_ctx {env : AgentEnv} {cfg : AgentConfig} {conv : List Message}
    {m : AgentMetrics} {trace : List AgentEvent} (fuel : ℕ)
    (h : checkContextLimit (estimateTokensMsgs conv) cfg.maxTokens
      cfg.contextLimitThreshold = true) :
    runLoop env cfg (fuel + 1) conv m trace =
      ({ success := false, response := none,
         error := some (contextLimitMessage (estimateTokensMsgs conv)
           { m with iterations := m.iterations + 1 }),
         metrics := { m with
                      iterations := m.iterations + 1,
                      contextLimitReached := true } },
       conv, trace) := by
  rw [runLoop]
  simp only [h, if_true]

lemma runLoop_succ_parseFail {env : AgentEnv} {cfg : AgentConfig}
    {conv : List Message} {m : AgentMetrics} {trace : List AgentEvent} {e : String}
    (fuel : ℕ)
    (hctx : checkContextLimit (estimateTokensMsgs conv) cfg.maxTokens
      cfg.contextLimitThreshold = false)
    (hcl : env.classify (env.llm conv) = TurnClass.parseFail e) :
    runLoop env cfg (fuel + 1) conv m trace =
      runLoop env cfg fuel
        (conv ++ [{ role := Role.system, content := env.parseErrorContent e }])
        { m with
          iterations := m.iterations + 1,
          parseErrors := m.parseErrors + 1 }
        (trace ++ [AgentEvent.llmCall conv]) := by
  rw [runLoop]
  simp only [hctx, if_false, hcl, Bool.false_eq_true]

lemma runLoop_succ_invalid {env : AgentEnv} {cfg : AgentConfig}
    {conv : List Message} {m : AgentMetrics} {trace : List AgentEvent}
    {errs : List String} (fuel : ℕ)
    (hctx : checkContextLimit (estimateTokensMsgs conv) cfg.maxTokens
      cfg.contextLimitThreshold = false)
    (hcl : env.classify (env.llm conv) = TurnClass.invalid errs) :
    runLoop env cfg (fuel + 1) conv m trace =
      runLoop env cfg fuel
        (conv ++ [{ role := Role.system,
                    content := env.validationErrorContent errs }])
        { m with
          iterations := m.iterations + 1,
          parseErrors := m.parseErrors + 1 }
        (trace ++ [AgentEvent.llmCall conv]) := by
  rw [runLoop]
  simp only [hctx, if_false, hcl, Bool.false_eq_true]

lemma runLoop_succ_tool {env : AgentEnv} {cfg : AgentConfig}
    {conv : List Message} {m : AgentMetrics} {trace : List AgentEvent}
    {tc : ToolCall} (fuel : ℕ)
    (hctx : checkContextLimit (estimateTokensMsgs conv) cfg.maxTokens
      cfg.contextLimitThreshold = false)
    (hcl : env.classify (env.llm conv) = TurnClass.tool tc) :
    runLoop env cfg (fuel + 1) conv m trace =
      runLoop env cfg fuel
        (conv ++ [{ role := Role.assistant,
                    content := env.stringifyToolResult (env.execTool tc) }])
        { m with
          iterations := m.iterations + 1,
          toolCalls := m.toolCalls + 1,
          toolFailures := m.toolFailures +
            (if (env.execTool tc).success then 0 else 1) }
        ((trace ++ [AgentEvent.llmCall conv]) ++ [AgentEvent.toolExec tc]) := by
  rw [runLoop]
  simp only [hctx, if_false, hcl, Bool.false_eq_true]

lemma runLoop_succ_done {env : AgentEnv} {cfg : AgentConfig}
    {conv : List Message} {m : AgentMetrics} {trace : List AgentEvent}
    {resp : String} (fuel : ℕ)
    (hctx : checkContextLimit (estimateTokensMsgs conv) cfg.maxTokens
      cfg.contextLimitThreshold = false)
    (hcl : env.classify (env.llm conv) = TurnClass.done resp) :
    runLoop env cfg (fuel + 1) conv m trace =
      ({ success := true, response := some resp, error := none,
         metrics := { m with iterations := m.iterations + 1 } },
       conv ++ [{ role := Role.assistant, content := env.llm conv }],
       trace ++ [AgentEvent.llmCall conv]) := by
  rw [runLoop]
  simp only [hctx, if_false, hcl, Bool.false_eq_true]

/-- Outcome trichotomy of the loop: a run either completes successfully,
stops at the context limit (flag set), or exhausts the entire remaining
budget and reports the max-iterations error with the iteration counter
increased by exactly the budget. -/
lemma runLoop_cases (env : AgentEnv) (cfg : AgentConfig) :
    ∀ (fuel : ℕ) (conv : List Message) (m : AgentMetrics) (trace : List AgentEvent),
      (runLoop env cfg fuel conv m trace).1.success = true ∨
      (runLoop env cfg fuel conv m trace).1.metrics.contextLimitReached = true ∨
      ((runLoop env cfg fuel conv m trace).1.success = false ∧
       (runLoop env cfg fuel conv m trace).1.metrics.contextLimitReached =
         m.contextLimitReached ∧
       (runLoop env cfg fuel conv m trace).1.metrics.iterations =
         m.iterations + fuel ∧
       (runLoop env cfg fuel conv m trace).1.error =
         some (maxIterationsMessage cfg.maxIterations
           (runLoop env cfg fuel conv m trace).1.metrics)) := by
  intro fuel
  induction fuel with
  | zero =>
    intro conv m trace
    rw [runLoop_zero]
    exact Or.inr (Or.inr ⟨rfl, rfl, rfl, rfl⟩)
  | succ fuel ih =>
    intro conv m trace
    rcases hctx : checkContextLimit (estimateTokensMsgs conv) cfg.maxTokens
        cfg.contextLimitThreshold with _ | _
    · rcases hcl : env.classify (env.llm conv) with e | errs | tc | resp
      · rw [runLoop_succ_parseFail fuel hctx hcl]
        rcases ih _ _ _ with h | h | ⟨h1, h2, h3, h4⟩
        · exact Or.inl h
        · exact Or.inr (Or.inl h)
        · refine Or.inr (Or.inr ⟨h1, h2, ?_, h4⟩)
          rw [h3]
          simp
          omega
      · rw [runLoop_succ_invalid fuel hctx hcl]
        rcases ih _ _ _ with h | h | ⟨h1, h2, h3, h4⟩
        · exact Or.inl h
        · exact Or.inr (Or.inl h)
        · refine Or.inr (Or.inr ⟨h1, h2, ?_, h4⟩)
          rw [h3]
          simp
          omega
      · rw [runLoop_succ_tool fuel hctx hcl]
        rcases ih _ _ _ with h | h | ⟨h1, h2, h3, h4⟩
        · exact Or.inl h
        · exact Or.inr (Or.inl h)
        · refine Or.inr (Or.inr ⟨h1, h2, ?_, h4⟩)
          rw [h3]
          simp
          omega
      · rw [runLoop_succ_done fuel hctx hcl]
        exact Or.inl rfl
    · rw [runLoop_succ_ctx fuel hctx]
      exact Or.inr (Or.inl rfl)

/-- Claim C1: In every run of `runAgent` that reaches the loop (non-blank
inputs) in which no iteration yields a Completion (the result is not a
success) and no context-limit stop occurs (the flag is not set; with the
collaborators embedded as total functions no other terminal error exists),
the loop runs exactly `maxIterations` passes — the iteration counter is
bumped at the top of each pass, so the final metrics report
`iterations = maxIterations` — and the result is the failure carrying the
"max iterations exceeded" message with the tool-call and parse-error
tallies. -/
theorem runAgent_max_iterations
    (env : AgentEnv) (cfg : AgentConfig) (ui sp : String) (conv0 : List Message)
    (hui : jsTrim ui.data ≠ []) (hsp : jsTrim sp.data ≠ [])
    (hns : (runAgent ui sp env cfg conv0).1.success = false)
    (hnc : (runAgent ui sp env cfg conv0).1.metrics.contextLimitReached = false) :
    (runAgent ui sp env cfg conv0).1.metrics.iterations = cfg.maxIterations.toNat ∧
    (runAgent ui sp env cfg conv0).1.error =
      some (maxIterationsMessage cfg.maxIterations
        (runAgent ui sp env cfg conv0).1.metrics) := by
  have hrw : runAgent ui sp env cfg conv0 =
      runLoop env cfg cfg.maxIterations.toNat
        ((if conv0.isEmpty then [{ role := Role.system, content := sp }] else conv0) ++
          [{ role := Role.user, content := ui }]) initialMetrics [] := by
    unfold runAgent
    rw [if_neg hui, if_neg hsp]
  rw [hrw] at hns hnc ⊢
  rcases runLoop_cases env cfg cfg.maxIterations.toNat
      ((if conv0.isEmpty then [{ role := Role.system, content := sp }] else conv0) ++
        [{ role := Role.user, content := ui }]) initialMetrics [] with
    h | h | ⟨h1, h2, h3, h4⟩
  · rw [h] at hns
    exact absurd hns (by simp)
  · rw [h] at hnc
    exact absurd hnc (by simp)
  · refine ⟨?_, h4⟩
    rw [h3]
    simp [initialMetrics]

/-- Witness for C1: a model that always answers unparseable text under a
budget of two iterations. -/
theorem runAgent_max_iterations_witness :
    (runAgent "hi" "sys" (sampleEnv (fun _ => TurnClass.parseFail "bad"))
        (sampleCfg 2) []).1.metrics.iterations = (sampleCfg 2).maxIterations.toNat ∧
    (runAgent "hi" "sys" (sampleEnv (fun _ => TurnClass.parseFail "bad"))
        (sampleCfg 2) []).1.error =
      some (maxIterationsMessage (sampleCfg 2).maxIterations
        (runAgent "hi" "sys" (sampleEnv (fun _ => TurnClass.parseFail "bad"))
          (sampleCfg 2) []).1.metrics) :=
by
  have hctx1 : checkContextLimit
      (estimateTokensMsgs
        [{ role := Role.system, content := "sys" },
         { role := Role.user, content := "hi" }])
      (sampleCfg 2).maxTokens (sampleCfg 2).contextLimitThreshold = false := by
    rw [estimateTokensMsgs_eq]
    show checkContextLimit 2 ((1000 : ℕ) : ℚ) 1 = false
    simp only [checkContextLimit, decide_eq_false_iff_not, gt_iff_lt, mul_one,
      Nat.cast_lt]
    decide
  have hctx2 : checkContextLimit
      (estimateTokensMsgs
        [{ role := Role.system, content := "sys" },
         { role := Role.user, content := "hi" },
         { role := Role.system, content := "bad" }])
      (sampleCfg 2).maxTokens (sampleCfg 2).contextLimitThreshold = false := by
    rw [estimateTokensMsgs_eq]
    show checkContextLimit 2 ((1000 : ℕ) : ℚ) 1 = false
    simp only [checkContextLimit, decide_eq_false_iff_not, gt_iff_lt, mul_one,
      Nat.cast_lt]
    decide
  have h0 : runAgent "hi" "sys" (sampleEnv (fun _ => TurnClass.parseFail "bad"))
      (sampleCfg 2) [] =
      runLoop (sampleEnv (fun _ => TurnClass.parseFail "bad")) (sampleCfg 2) 2
        [{ role := Role.system, content := "sys" },
         { role := Role.user, content := "hi" }] initialMetrics [] := by
    unfold runAgent
    rw [if_neg (by decide), if_neg (by decide)]
    rfl
  have h1 : runLoop (sampleEnv (fun _ => TurnClass.parseFail "bad")) (sampleCfg 2) 2
      [{ role := Role.system, content := "sys" },
       { role := Role.user, content := "hi" }] initialMetrics [] =
      runLoop (sampleEnv (fun _ => TurnClass.parseFail "bad")) (sampleCfg 2) 1
        [{ role := Role.system, content := "sys" },
         { role := Role.user, content := "hi" },
         { role := Role.system, content := "bad" }]
        { iterations := 1, toolCalls := 0, parseErrors := 1, toolFailures := 0,
          contextLimitReached := false }
        [AgentEvent.llmCall
          [{ role := Role.system, content := "sys" },
           { role := Role.user, content := "hi" }]] := by
    show runLoop (sampleEnv (fun _ => TurnClass.parseFail "bad")) (sampleCfg 2)
      (1 + 1) _ initialMetrics [] = _
    exact runLoop_succ_parseFail 1 hctx1 rfl
  have h2 : runLoop (sampleEnv (fun _ => TurnClass.parseFail "bad")) (sampleCfg 2) 1
      [{ role := Role.system, content := "sys" },
       { role := Role.user, content := "hi" },
       { role := Role.system, content := "bad" }]
      { iterations := 1, toolCalls := 0, parseErrors := 1, toolFailures := 0,
        contextLimitReached := false }
      [AgentEvent.llmCall
        [{ role := Role.system, content := "sys" },
         { role := Role.user, content := "hi" }]] =
      runLoop (sampleEnv (fun _ => TurnClass.parseFail "bad")) (sampleCfg 2) 0
        [{ role := Role.system, content := "sys" },
         { role := Role.user, content := "hi" },
         { role := Role.system, content := "bad" },
         { role := Role.system, content := "bad" }]
        { iterations := 2, toolCalls := 0, parseErrors := 2, toolFailures := 0,
          contextLimitReached := false }
        [AgentEvent.llmCall
          [{ role := Role.system, content := "sys" },
           { role := Role.user, content := "hi" }],
         AgentEvent.llmCall
          [{ role := Role.system, content := "sys" },
           { role := Role.user, content := "hi" },
           { role := Role.system, content := "bad" }]] := by
    show runLoop (sampleEnv (fun _ => TurnClass.parseFail "bad")) (sampleCfg 2)
      (0 + 1) _ _ _ = _
    exact runLoop_succ_parseFail 0 hctx2 rfl
  have hrun := h0.trans (h1.trans (h2.trans (runLoop_zero _ _ _ _ _)))
  exact runAgent_max_iterations (sampleEnv (fun _ => TurnClass.parseFail "bad"))
    (sampleCfg 2) "hi" "sys" [] (by decide) (by decide)
    (by rw [hrun]) (by rw [hrun])

/-- Claim C2: The token estimate is compared against
`maxTokens * contextLimitThreshold` at the top of every iteration, before the
model service is invoked: (1) whenever the estimate strictly exceeds the
product, that iteration performs no model call (the event trace is not
extended), `metrics.contextLimitReached` is set, and the loop returns the
failure with the distinguishable "context limit reached" error; (2) in any
`runAgent` run, every model invocation was made with a conversation whose
estimate did not exceed the product. -/
theorem contextLimit_checked_before_model (env : AgentEnv) (cfg : AgentConfig) :
    (∀ (fuel : ℕ) (conv : List Message) (m : AgentMetrics)
        (trace : List AgentEvent),
      checkContextLimit (estimateTokensMsgs conv) cfg.maxTokens
          cfg.contextLimitThreshold = true →
      runLoop env cfg (fuel + 1) conv m trace =
        ({ success := false, response := none,
           error := some (contextLimitMessage (estimateTokensMsgs conv)
             { m with iterations := m.iterations + 1 }),
           metrics := { m with
                        iterations := m.iterations + 1,
                        contextLimitReached := true } },
         conv, trace)) ∧
    (∀ (ui sp : String) (conv0 : List Message) (msgs : List Message),
      AgentEvent.llmCall msgs ∈ (runAgent ui sp env cfg conv0).2.2 →
      checkContextLimit (estimateTokensMsgs msgs) cfg.maxTokens
        cfg.contextLimitThreshold = false) := by
  constructor
  · intro fuel conv m trace h
    exact runLoop_succ_ctx fuel h
  · have key : ∀ (fuel : ℕ) (conv : List Message) (m : AgentMetrics)
        (trace : List AgentEvent),
        (∀ msgs, AgentEvent.llmCall msgs ∈ trace →
          checkContextLimit (estimateTokensMsgs msgs) cfg.maxTokens
            cfg.contextLimitThreshold = false) →
        ∀ msgs, AgentEvent.llmCall msgs ∈ (runLoop env cfg fuel conv m trace).2.2 →
          checkContextLimit (estimateTokensMsgs msgs) cfg.maxTokens
            cfg.contextLimitThreshold = false := by
      intro fuel
      induction fuel with
      | zero =>
        intro conv m trace hin msgs hmem
        rw [runLoop_zero] at hmem
        exact hin msgs hmem
      | succ fuel ih =>
        intro conv m trace hin msgs hmem
        rcases hctx : checkContextLimit (estimateTokensMsgs conv) cfg.maxTokens
            cfg.contextLimitThreshold with _ | _
        · have hext : ∀ ms, AgentEvent.llmCall ms ∈
              trace ++ [AgentEvent.llmCall conv] →
              checkContextLimit (estimateTokensMsgs ms) cfg.maxTokens
                cfg.contextLimitThreshold = false := by
            intro ms hms
            rcases List.mem_append.mp hms with h | h
            · exact hin ms h
            · simp only [List.mem_singleton, AgentEvent.llmCall.injEq] at h
              rw [h]
              exact hctx
          rcases hcl : env.classify (env.llm conv) with e | errs | tc | resp
          · rw [runLoop_succ_parseFail fuel hctx hcl] at hmem
            exact ih _ _ _ hext msgs hmem
          · rw [runLoop_succ_invalid fuel hctx hcl] at hmem
            exact ih _ _ _ hext msgs hmem
          · rw [runLoop_succ_tool fuel hctx hcl] at hmem
            refine ih _ _ _ ?_ msgs hmem
            intro ms hms
            rcases List.mem_append.mp hms with h | h
            · exact hext ms h
            · simp at h
          · rw [runLoop_succ_done fuel hctx hcl] at hmem
            exact hext msgs hmem
        · rw [runLoop_succ_ctx fuel hctx] at hmem
          exact hin msgs hmem
    intro ui sp conv0 msgs hmem
    unfold runAgent at hmem
    by_cases hui : jsTrim ui.data = []
    · rw [if_pos hui] at hmem
      simp at hmem
    · rw [if_neg hui] at hmem
      by_cases hsp : jsTrim sp.data = []
      · rw [if_pos hsp] at hmem
        simp at hmem
      · rw [if_neg hsp] at hmem
        refine key _ _ _ _ ?_ msgs hmem
        intro ms hms
        simp at hms

/-- Witness for C2: a one-message conversation over a zero token budget
stops before any model call. -/
theorem contextLimit_checked_before_model_witness :
    runLoop (sampleEnv (fun _ => TurnClass.done "ok"))
        { maxIterations := 1, contextLimitThreshold := 1, maxTokens := 0 }
        (0 + 1) [{ role := Role.user, content := "hello" }] initialMetrics [] =
      ({ success := false, response := none,
         error := some (contextLimitMessage
           (estimateTokensMsgs [{ role := Role.user, content := "hello" }])
           { initialMetrics with iterations := initialMetrics.iterations + 1 }),
         metrics := { initialMetrics with
                      iterations := initialMetrics.iterations + 1,
                      contextLimitReached := true } },
       [{ role := Role.user, content := "hello" }], []) :=
  (contextLimit_checked_before_model (sampleEnv (fun _ => TurnClass.done "ok"))
      { maxIterations := 1, contextLimitThreshold := 1, maxTokens := 0 }).1
    0 [{ role := Role.user, content := "hello" }] initialMetrics []
    (by rw [estimateTokensMsgs_eq]
        show checkContextLimit 2 0 1 = true
        simp [checkContextLimit])

/-- Claim C3: Whenever the parsed-and-validated model turn of an iteration is a
Completion, the loop appends exactly one assistant message whose content is
the raw model output (`env.llm conv`, not the extracted `response` field) and
terminates successfully, returning `success = true`, the Completion's
`response` field, and the metrics accumulated up to that point (with the
current iteration counted). -/
theorem completion_appends_raw_and_succeeds
    (env : AgentEnv) (cfg : AgentConfig) (fuel : ℕ) (conv : List Message)
    (m : AgentMetrics) (trace : List AgentEvent) (resp : String)
    (hctx : checkContextLimit (estimateTokensMsgs conv) cfg.maxTokens
      cfg.contextLimitThreshold = false)
    (hdone : env.classify (env.llm conv) = TurnClass.done resp) :
    runLoop env cfg (fuel + 1) conv m trace =
      ({ success := true, response := some resp, error := none,
         metrics := { m with iterations := m.iterations + 1 } },
       conv ++ [{ role := Role.assistant, content := env.llm conv }],
       trace ++ [AgentEvent.llmCall conv]) :=
  runLoop_succ_done fuel hctx hdone

/-- Witness for C3: a model that immediately completes with response
`ok`. -/
theorem completion_appends_raw_and_succeeds_witness :
    runLoop (sampleEnv (fun _ => TurnClass.done "ok")) (sampleCfg 2) (0 + 1)
        [{ role := Role.user, content := "hi" }] initialMetrics [] =
      ({ success := true, response := some "ok", error := none,
         metrics := { initialMetrics with
           iterations := initialMetrics.iterations + 1 } },
       [{ role := Role.user, content := "hi" }] ++
         [{ role := Role.assistant,
            content := (sampleEnv (fun _ => TurnClass.done "ok")).llm
              [{ role := Role.user, content := "hi" }] }],
       [] ++ [AgentEvent.llmCall [{ role := Role.user, content := "hi" }]]) :=
  completion_appends_raw_and_succeeds (sampleEnv (fun _ => TurnClass.done "ok"))
    (sampleCfg 2) 0 [{ role := Role.user, content := "hi" }] initialMetrics []
    "ok"
    (by rw [estimateTokensMsgs_eq]
        show checkContextLimit 1 ((1000 : ℕ) : ℚ) 1 = false
        simp only [checkContextLimit, decide_eq_false_iff_not, gt_iff_lt,
          mul_one, Nat.cast_lt]
        decide)
    rfl

/-- Claim C10: For every `runAgent` call with non-blank user input and system
prompt and a configuration whose `maxIterations` is zero or negative, the
loop body never executes: the trace is empty (the model service is never
invoked and no tool is executed) and the call returns the "max iterations
exceeded" failure with all counters at zero, while the conversation is still
seeded (when empty) and the user message still appended. -/
theorem runAgent_nonpositive_budget
    (env : AgentEnv) (cfg : AgentConfig) (ui sp : String) (conv0 : List Message)
    (hui : jsTrim ui.data ≠ []) (hsp : jsTrim sp.data ≠ [])
    (hmi : cfg.maxIterations ≤ 0) :
    runAgent ui sp env cfg conv0 =
      ({ success := false, response := none,
         error := some (maxIterationsMessage cfg.maxIterations initialMetrics),
         metrics := initialMetrics },
       (if conv0.isEmpty then [{ role := Role.system, content := sp }]
         else conv0) ++ [{ role := Role.user, content := ui }],
       []) := by
  have h0 : cfg.maxIterations.toNat = 0 := Int.toNat_of_nonpos hmi
  unfold runAgent
  rw [if_neg hui, if_neg hsp]
  show runLoop env cfg cfg.maxIterations.toNat _ initialMetrics [] = _
  rw [h0, runLoop_zero]

/-- Witness for C10: a budget of `-3` iterations with non-blank inputs. -/
theorem runAgent_nonpositive_budget_witness :
    runAgent "hi" "sys" (sampleEnv (fun _ => TurnClass.done "ok"))
        (sampleCfg (-3)) [] =
      ({ success := false, response := none,
         error := some (maxIterationsMessage (sampleCfg (-3)).maxIterations
           initialMetrics),
         metrics := initialMetrics },
       (if ([] : List Message).isEmpty
         then [{ role := Role.system, content := "sys" }] else []) ++
         [{ role := Role.user, content := "hi" }],
       []) :=
  runAgent_nonpositive_budget (sampleEnv (fun _ => TurnClass.done "ok"))
    (sampleCfg (-3)) "hi" "sys" [] (by decide) (by decide) (by decide)

end MultiAgent
